import Mathlib

/-!
# Verification of the premium-calculator core (`src/app.py`)

Shallow embedding of the rule-resolution core of the Streamlit premium
calculator: range-table normalization (`normalize_tiers`, `normalize_promos`),
range resolution (`find_rate_for_place`, `find_bonus_for_place`) and the
scenario evaluator (`compute_scenarios`).

Modelling conventions:
* A pandas `DataFrame` is a `RawTable`: an ordered list of column labels and a
  list of rows, each row a list of cells aligned with the labels.
* A cell is modelled by its image under `pd.to_numeric(..., errors="coerce")`:
  `Cell.num q` is a cell that coerces to the number `q` (a numeric cell or a
  parseable string), `Cell.na` is a missing cell, `NaN`, or an unparseable
  string, which `to_numeric` coerces to `NaN`.
* Numbers are exact rationals (`ℚ`); ranks after the `Int64` cast are `ℤ`.
* Python code that can raise is modelled in `Except String`; the raise
  paths of the source are a `KeyError` when `df[col]` reads an absent
  `von_platz`/`bis_platz` column in the normalizers, a `TypeError` when
  `.astype("Int64")` meets a numeric value with a fractional part, and an
  `AttributeError` in `compute_scenarios` when the `platz` column is absent
  (`df.get` then yields the scalar `np.nan`, which `pd.to_numeric` returns
  unchanged and which has no `.astype`).
* `df.sort_values` on several columns is a stable sort by the lexicographic
  key, modelled by `List.insertionSort` with the lexicographic relation.
* Duplicate column labels are not modelled; a label lookup takes the first
  occurrence.
-/

instance {ε α : Type} [DecidableEq ε] [DecidableEq α] : DecidableEq (Except ε α) :=
  fun x y =>
    match x, y with
    | .ok a, .ok b =>
        if h : a = b then isTrue (by rw [h]) else isFalse fun hh => h (Except.ok.inj hh)
    | .error a, .error b =>
        if h : a = b then isTrue (by rw [h]) else isFalse fun hh => h (Except.error.inj hh)
    | .ok _, .error _ => isFalse fun hh => Except.noConfusion hh
    | .error _, .ok _ => isFalse fun hh => Except.noConfusion hh

/-- A cell of a loosely-typed table, identified with its value under
`pd.to_numeric(errors="coerce")`: either a number or `NaN`. -/
inductive Cell where
  | num (q : ℚ)
  | na
deriving DecidableEq, Repr

/-- `pd.to_numeric(cell, errors="coerce")`, with `NaN` as `none`. -/
def Cell.toNumeric : Cell → Option ℚ
  | .num q => some q
  | .na => none

/-- A pandas `DataFrame` of loosely-typed data: column labels plus rows of
cells aligned with the labels. -/
structure RawTable where
  cols : List String
  rows : List (List Cell)
deriving DecidableEq, Repr

/-- A cleaned range rule: `{von_platz, bis_platz, eur_pro_punkt/bonus_eur}`
after numeric coercion, one row of a normalized table. -/
structure Rule where
  von_platz : ℤ
  bis_platz : ℤ
  value : ℚ
deriving DecidableEq, Repr

/-- Position of a column label, `none` when the `DataFrame` lacks it. -/
def colIdx (cols : List String) (name : String) : Option Nat :=
  cols.findIdx? (· == name)

/-- The cell of `row` in column `name`; `Cell.na` when the column is absent
(the `df.get(name, np.nan)` default). -/
def cellAt (cols : List String) (name : String) (row : List Cell) : Cell :=
  match colIdx cols name with
  | some i => row.getD i Cell.na
  | none => Cell.na

/-- `Series.astype("Int64")` succeeds on a coerced column iff every non-`NaN`
entry is integral; otherwise pandas raises
`TypeError: cannot safely cast non-equivalent float64 to int64`. -/
def intColOk (col : List (Option ℚ)) : Bool :=
  col.all fun c =>
    match c with
    | some q => q.den == 1
    | none => true

/-- Python's `str.strip()`: drop leading and trailing whitespace.  Defined
structurally over the character list so that proofs may evaluate it. -/
def pyStrip (s : String) : String :=
  ⟨((s.data.dropWhile Char.isWhitespace).reverse.dropWhile Char.isWhitespace).reverse⟩

/-- Python's `str.lower()`, structurally over the character list. -/
def pyLower (s : String) : String :=
  ⟨s.data.map Char.toLower⟩

/-- The alias map of `normalize_tiers` (applied after lower-casing and
trimming): `{"von": "von_platz", "bis": "bis_platz", "€/punkt":
"eur_pro_punkt", "euro pro punkt": "eur_pro_punkt"}`, identity elsewhere. -/
def tierAlias (c : String) : String :=
  if c = "von" then "von_platz"
  else if c = "bis" then "bis_platz"
  else if c = "€/punkt" then "eur_pro_punkt"
  else if c = "euro pro punkt" then "eur_pro_punkt"
  else c

/-- The alias map of `normalize_promos`: `{"von": "von_platz", "bis":
"bis_platz", "bonus": "bonus_eur", "aufstiegsbonus": "bonus_eur"}`,
identity elsewhere. -/
def promoAlias (c : String) : String :=
  if c = "von" then "von_platz"
  else if c = "bis" then "bis_platz"
  else if c = "bonus" then "bonus_eur"
  else if c = "aufstiegsbonus" then "bonus_eur"
  else c

/-- `c.strip().lower()` followed by the tier alias map. -/
def canonTierCol (c : String) : String := tierAlias (pyLower (pyStrip c))

/-- `c.strip().lower()` followed by the promo alias map. -/
def canonPromoCol (c : String) : String := promoAlias (pyLower (pyStrip c))

/-- The sort key of `df.sort_values(["von_platz", "bis_platz"])`:
lexicographic order on `(von_platz, bis_platz)`. -/
def ruleLe (a b : Rule) : Prop :=
  a.von_platz < b.von_platz ∨ (a.von_platz = b.von_platz ∧ a.bis_platz ≤ b.bis_platz)

instance : DecidableRel ruleLe := fun a b => by
  unfold ruleLe; infer_instance

instance : IsTotal Rule ruleLe where
  total a b := by
    rcases lt_trichotomy a.von_platz b.von_platz with h | h | h
    · exact Or.inl (Or.inl h)
    · rcases le_total a.bis_platz b.bis_platz with h2 | h2
      · exact Or.inl (Or.inr ⟨h, h2⟩)
      · exact Or.inr (Or.inr ⟨h.symm, h2⟩)
    · exact Or.inr (Or.inl h)

instance : IsTrans Rule ruleLe where
  trans a b c hab hbc := by
    rcases hab with h1 | ⟨e1, l1⟩ <;> rcases hbc with h2 | ⟨e2, l2⟩
    · exact Or.inl (h1.trans h2)
    · exact Or.inl (e2 ▸ h1)
    · exact Or.inl (e1 ▸ h2)
    · exact Or.inr ⟨e1.trans e2, l1.trans l2⟩

/-- Row-wise residue of the column-wise cleaning: given the coerced
`(von_platz, bis_platz, value)` cells of one row, keep the row iff all three
coercions succeeded (`dropna`) and `von_platz <= bis_platz`.  The `Int64`
cast of the rank columns is the `.num` projection (the whole-column
integrality check happens before this point). -/
def coerceTriple (p : Option ℚ × Option ℚ × Option ℚ) : Option Rule :=
  match p with
  | (some v, some b, some x) =>
      if v.num ≤ b.num then some ⟨v.num, b.num, x⟩ else none
  | _ => none

/-- The shared cleaning pipeline of `normalize_tiers` / `normalize_promos`
(`src/app.py:18-43`), parameterized by the column canonicalizer and the name
of the value column.  Steps, as in the source: canonicalize column labels;
`df[col] = pd.to_numeric(df[col]).astype("Int64")` for
`von_platz`/`bis_platz` (`KeyError` when a column is absent, `TypeError` when
a numeric entry is fractional); `pd.to_numeric(df.get(vname, np.nan))` for
the value column; `dropna` over the three columns; keep rows with
`von_platz <= bis_platz`; stable sort by `(von_platz, bis_platz)`. -/
def normalize_ranges (canon : String → String) (vname : String)
    (t : RawTable) : Except String (List Rule) :=
  let cols := t.cols.map canon
  if (colIdx cols "von_platz").isSome && (colIdx cols "bis_platz").isSome then
    let vonCol := t.rows.map fun row => (cellAt cols "von_platz" row).toNumeric
    let bisCol := t.rows.map fun row => (cellAt cols "bis_platz" row).toNumeric
    if intColOk vonCol && intColOk bisCol then
      let valCol := t.rows.map fun row => (cellAt cols vname row).toNumeric
      let cleaned := (vonCol.zip (bisCol.zip valCol)).filterMap coerceTriple
      .ok (cleaned.insertionSort ruleLe)
    else .error "TypeError: cannot safely cast non-equivalent float64 to int64"
  else .error "KeyError"

/-- `normalize_tiers` (`src/app.py:18-30`). -/
def normalize_tiers (df_tiers : RawTable) : Except String (List Rule) :=
  normalize_ranges canonTierCol "eur_pro_punkt" df_tiers

/-- `normalize_promos` (`src/app.py:32-43`). -/
def normalize_promos (df_promos : RawTable) : Except String (List Rule) :=
  normalize_ranges canonPromoCol "bonus_eur" df_promos

/-- A rule matches a place iff `von_platz <= place <= bis_platz`
(the boolean mask of `src/app.py:46,55`). -/
def ruleMatches (place : ℤ) (r : Rule) : Bool :=
  decide (r.von_platz ≤ place) && decide (place ≤ r.bis_platz)

/-- The sort key of `matches.sort_values(["width", "von_platz"])` in the
`max_range` branch: lexicographic order on
`(bis_platz - von_platz, von_platz)`. -/
def widthLe (a b : Rule) : Prop :=
  a.bis_platz - a.von_platz < b.bis_platz - b.von_platz ∨
    (a.bis_platz - a.von_platz = b.bis_platz - b.von_platz ∧
      a.von_platz ≤ b.von_platz)

instance : DecidableRel widthLe := fun a b => by
  unfold widthLe; infer_instance

instance : IsTotal Rule widthLe where
  total a b := by
    rcases lt_trichotomy (a.bis_platz - a.von_platz) (b.bis_platz - b.von_platz)
      with h | h | h
    · exact Or.inl (Or.inl h)
    · rcases le_total a.von_platz b.von_platz with h2 | h2
      · exact Or.inl (Or.inr ⟨h, h2⟩)
      · exact Or.inr (Or.inr ⟨h.symm, h2⟩)
    · exact Or.inr (Or.inl h)

instance : IsTrans Rule widthLe where
  trans a b c hab hbc := by
    rcases hab with h1 | ⟨e1, l1⟩ <;> rcases hbc with h2 | ⟨e2, l2⟩
    · exact Or.inl (h1.trans h2)
    · exact Or.inl (e2 ▸ h1)
    · exact Or.inl (e1 ▸ h2)
    · exact Or.inr ⟨e1.trans e2, l1.trans l2⟩

/-- `find_rate_for_place` (`src/app.py:45-52`): filter the matching tiers;
empty → `base_rate`; mode `"max_range"` → value of the first row after a
stable sort by `(width, von_platz)`; any other mode → value of the first
match in table order. -/
def find_rate_for_place (place : ℤ) (tiers : List Rule) (base_rate : ℚ)
    (match_mode : String := "first") : ℚ :=
  match tiers.filter (ruleMatches place) with
  | [] => base_rate
  | m :: ms =>
    if match_mode = "max_range" then
      (((m :: ms).insertionSort widthLe).headD m).value
    else m.value

/-- `find_bonus_for_place` (`src/app.py:54-63`): filter the matching bonus
rules; empty → `0`; mode `"first"` → first match's value; mode `"max"` →
maximum of the matching values; any other mode → their sum. -/
def find_bonus_for_place (place : ℤ) (promos : List Rule)
    (mode : String := "first") : ℚ :=
  match promos.filter (ruleMatches place) with
  | [] => 0
  | m :: ms =>
    if mode = "first" then m.value
    else if mode = "max" then ms.foldl (fun acc r => max acc r.value) m.value
    else (m.value :: ms.map Rule.value).sum

/-- One output row of `compute_scenarios`: the cleaned scenario columns
`platz`/`punkte` plus the computed columns `€/Punkt`, `Aufstiegsbonus (€)`
and `Gesamt-Prämie (€)`. -/
structure ResultRow where
  platz : ℤ
  punkte : ℚ
  rate : ℚ
  bonus : ℚ
  total : ℚ
deriving DecidableEq, Repr

/-- Row-wise residue of the scenario cleaning: keep a row iff both the rank
and the points cell coerce (`dropna`), the rank being cast to `Int64`
(`.num`, after the whole-column integrality check). -/
def coercePair (p : Option ℚ × Option ℚ) : Option (ℤ × ℚ) :=
  match p with
  | (some pl, some pts) => some (pl.num, pts)
  | _ => none

/-- The body of the `for`-loop of `compute_scenarios`: for a cleaned scenario
`(place, pts)`, look up the rate and the bonus and append
`total = pts * rate + bonus`. -/
def evalScenario (tiers : List Rule) (base_rate : ℚ) (promos : List Rule)
    (promo_mode : String) (tier_mode : String) (s : ℤ × ℚ) : ResultRow :=
  let rate := find_rate_for_place s.1 tiers base_rate tier_mode
  let bonus := find_bonus_for_place s.1 promos promo_mode
  { platz := s.1, punkte := s.2, rate := rate, bonus := bonus,
    total := s.2 * rate + bonus }

/-- `compute_scenarios` (`src/app.py:65-87`): lower-case and trim the column
labels (the rename map `{"platz": "platz", "punkte": "punkte"}` is the
identity); coerce `platz` via `pd.to_numeric(df.get("platz", np.nan))` and
`.astype("Int64")`, then `punkte` via `pd.to_numeric(df.get("punkte",
np.nan))`; drop rows where either is `NaN`; then, in input order, look up the
rate and the bonus for each row's place and append
`total = punkte * rate + bonus`.  Raise paths of `src/app.py:70`: when the
`platz` column is absent, `df.get` returns the scalar `np.nan`, `to_numeric`
returns that scalar number unchanged, and `.astype` on a Python float raises
an `AttributeError`; when the column is present but holds a fractional
numeric value, `.astype("Int64")` raises a `TypeError`.  A missing `punkte`
column is harmless: line 71 has no `astype`, so the scalar `NaN` broadcasts
to an all-`NaN` column and every row is dropped. -/
def compute_scenarios (df_scen : RawTable) (tiers : List Rule)
    (base_rate : ℚ) (promos : List Rule) (promo_mode : String)
    (tier_mode : String) : Except String (List ResultRow) :=
  let cols := df_scen.cols.map fun c => pyLower (pyStrip c)
  if (colIdx cols "platz").isSome then
    let platzCol := df_scen.rows.map fun row => (cellAt cols "platz" row).toNumeric
    if intColOk platzCol then
      let punkteCol := df_scen.rows.map fun row => (cellAt cols "punkte" row).toNumeric
      let cleaned := (platzCol.zip punkteCol).filterMap coercePair
      .ok (cleaned.map (evalScenario tiers base_rate promos promo_mode tier_mode))
    else .error "TypeError: cannot safely cast non-equivalent float64 to int64"
  else .error "AttributeError: float object has no attribute astype"

/-- `DEFAULT_TIERS` of `src/app.py:184-188`, already in normalized form. -/
def DEFAULT_TIERS : List Rule :=
  [⟨1, 2, 75⟩, ⟨3, 5, 50⟩, ⟨6, 10, 35⟩]

/-- `DEFAULT_PROMOS` of `src/app.py:189-193`, already in normalized form. -/
def DEFAULT_PROMOS : List Rule :=
  [⟨1, 1, 2500⟩, ⟨2, 2, 2000⟩]

/-- The scenario batch of the spec's end-to-end property:
`(rank=1, points=73)` and `(rank=11, points=31)`. -/
def END_TO_END_SCEN : RawTable :=
  ⟨["Platz", "Punkte"], [[Cell.num 1, Cell.num 73], [Cell.num 11, Cell.num 31]]⟩

/-- Re-encode a normalized table as a raw table with canonical column names,
to feed it to normalization again. -/
def rulesToTable (vname : String) (rs : List Rule) : RawTable :=
  ⟨["von_platz", "bis_platz", vname],
    rs.map fun r => [Cell.num r.von_platz, Cell.num r.bis_platz, Cell.num r.value]⟩

/-- The per-row cleaner induced by the column-wise pipeline: coerce the three
relevant cells of one row and keep the row iff all coercions succeed and the
range is not inverted. -/
def cleanRow (cols : List String) (vname : String) (row : List Cell) : Option Rule :=
  coerceTriple ((cellAt cols "von_platz" row).toNumeric,
    (cellAt cols "bis_platz" row).toNumeric, (cellAt cols vname row).toNumeric)

/-- The canonicalized column labels of the scenario table. -/
def scenCols (t : RawTable) : List String :=
  t.cols.map fun c => pyLower (pyStrip c)

/-- The per-row cleaner of the scenario pipeline. -/
def cleanScenRow (cols : List String) (row : List Cell) : Option (ℤ × ℚ) :=
  coercePair ((cellAt cols "platz" row).toNumeric, (cellAt cols "punkte" row).toNumeric)

theorem normalize_ranges_ok_eq {canon : String → String} {vname : String}
    {t : RawTable} {out : List Rule}
    (h : normalize_ranges canon vname t = .ok out) :
    out = (t.rows.filterMap (cleanRow (t.cols.map canon) vname)).insertionSort ruleLe := by
  unfold normalize_ranges at h
  simp only [List.zip_map', List.filterMap_map] at h
  split at h
  · split at h
    · exact (Except.ok.inj h).symm
    · exact Except.noConfusion h
  · exact Except.noConfusion h

theorem mem_normalize_ranges {canon : String → String} {vname : String}
    {t : RawTable} {out : List Rule}
    (h : normalize_ranges canon vname t = .ok out) {r : Rule} :
    r ∈ out ↔ ∃ row ∈ t.rows, cleanRow (t.cols.map canon) vname row = some r := by
  rw [normalize_ranges_ok_eq h, List.mem_insertionSort, List.mem_filterMap]

theorem sorted_normalize_ranges {canon : String → String} {vname : String}
    {t : RawTable} {out : List Rule}
    (h : normalize_ranges canon vname t = .ok out) : out.Sorted ruleLe := by
  rw [normalize_ranges_ok_eq h]
  exact List.sorted_insertionSort ruleLe _

theorem cleanRow_eq_some {cols : List String} {vname : String} {row : List Cell}
    {r : Rule} (h : cleanRow cols vname row = some r) :
    ∃ v b x : ℚ, (cellAt cols "von_platz" row).toNumeric = some v ∧
      (cellAt cols "bis_platz" row).toNumeric = some b ∧
      (cellAt cols vname row).toNumeric = some x ∧
      v.num ≤ b.num ∧ r = ⟨v.num, b.num, x⟩ := by
  unfold cleanRow coerceTriple at h
  split at h
  · next v b x heq =>
    rw [Prod.mk.injEq, Prod.mk.injEq] at heq
    split at h
    · exact ⟨v, b, x, heq.1, heq.2.1, heq.2.2, by assumption,
        (Option.some.inj h).symm⟩
    · exact Option.noConfusion h
  · exact Option.noConfusion h

theorem normalize_mem_range_le {canon : String → String} {vname : String}
    {t : RawTable} {out : List Rule}
    (h : normalize_ranges canon vname t = .ok out) {r : Rule} (hr : r ∈ out) :
    r.von_platz ≤ r.bis_platz := by
  obtain ⟨row, -, hc⟩ := (mem_normalize_ranges h).1 hr
  obtain ⟨v, b, x, -, -, -, hle, rfl⟩ := cleanRow_eq_some hc
  exact hle

theorem compute_scenarios_ok_eq {t : RawTable} {tiers : List Rule} {base_rate : ℚ}
    {promos : List Rule} {pm tm : String} {out : List ResultRow}
    (h : compute_scenarios t tiers base_rate promos pm tm = .ok out) :
    out = (t.rows.filterMap (cleanScenRow (scenCols t))).map
      (evalScenario tiers base_rate promos pm tm) := by
  unfold compute_scenarios at h
  simp only [List.zip_map', List.filterMap_map] at h
  split at h
  · split at h
    · exact (Except.ok.inj h).symm
    · exact Except.noConfusion h
  · exact Except.noConfusion h

theorem compute_scenarios_eq_ok {t : RawTable} (tiers : List Rule) (base_rate : ℚ)
    (promos : List Rule) (pm tm : String)
    (hcol : (colIdx (scenCols t) "platz").isSome = true)
    (hok : intColOk (t.rows.map fun row =>
      (cellAt (scenCols t) "platz" row).toNumeric) = true) :
    compute_scenarios t tiers base_rate promos pm tm =
      .ok ((t.rows.filterMap (cleanScenRow (scenCols t))).map
        (evalScenario tiers base_rate promos pm tm)) := by
  unfold compute_scenarios
  simp only [List.zip_map', List.filterMap_map]
  split
  · split
    · rfl
    · next hc => exact absurd hok hc
  · next hc => exact absurd hcol hc

theorem colIdx_isSome_of_cell {cols : List String} {name : String}
    {row : List Cell} {q : ℚ}
    (h : (cellAt cols name row).toNumeric = some q) :
    (colIdx cols name).isSome = true := by
  unfold cellAt at h
  rcases hc : colIdx cols name with - | i
  · rw [hc] at h
    exact Option.noConfusion h
  · rfl

theorem normalize_ranges_eq_ok {canon : String → String} {vname : String}
    {t : RawTable}
    (h1 : (colIdx (t.cols.map canon) "von_platz").isSome = true)
    (h2 : (colIdx (t.cols.map canon) "bis_platz").isSome = true)
    (h3 : intColOk (t.rows.map fun row =>
      (cellAt (t.cols.map canon) "von_platz" row).toNumeric) = true)
    (h4 : intColOk (t.rows.map fun row =>
      (cellAt (t.cols.map canon) "bis_platz" row).toNumeric) = true) :
    normalize_ranges canon vname t =
      .ok ((t.rows.filterMap (cleanRow (t.cols.map canon) vname)).insertionSort ruleLe) := by
  unfold normalize_ranges
  simp only [List.zip_map', List.filterMap_map]
  split
  · split
    · rfl
    · next hc => rw [h3, h4] at hc; exact absurd rfl hc
  · next hc => rw [h1, h2] at hc; exact absurd rfl hc

theorem filterMap_eq_map_of {α β : Type} {l : List α} {f : α → Option β} {g : α → β}
    (h : ∀ x ∈ l, f x = some (g x)) : l.filterMap f = l.map g := by
  induction l with
  | nil => rfl
  | cons a l ih =>
      rw [List.filterMap_cons_some (h a (List.mem_cons_self a l)), List.map_cons,
        ih fun x hx => h x (List.mem_cons_of_mem a hx)]

theorem foldl_max_spec (l : List ℚ) (a : ℚ) :
    (l.foldl max a = a ∨ l.foldl max a ∈ l) ∧
      a ≤ l.foldl max a ∧ ∀ x ∈ l, x ≤ l.foldl max a := by
  induction l generalizing a with
  | nil => exact ⟨Or.inl rfl, le_refl a, by simp⟩
  | cons b l ih =>
      obtain ⟨hmem, hle, hall⟩ := ih (max a b)
      simp only [List.foldl_cons]
      refine ⟨?_, le_trans (le_max_left a b) hle, ?_⟩
      · rcases hmem with h | h
        · rcases max_choice a b with hm | hm
          · exact Or.inl (by rw [h, hm])
          · exact Or.inr (by rw [h, hm]; exact List.mem_cons_self b l)
        · exact Or.inr (List.mem_cons_of_mem b h)
      · intro x hx
        rcases List.mem_cons.1 hx with rfl | hx
        · exact le_trans (le_max_right a x) hle
        · exact hall x hx

theorem end_to_end_eval :
    compute_scenarios END_TO_END_SCEN DEFAULT_TIERS 25 DEFAULT_PROMOS "first" "first" =
    .ok [⟨1, 73, 75, 2500, 7975⟩, ⟨11, 31, 25, 0, 775⟩] := by
  conv_rhs => rw [show (7975 : ℚ) = 73 * 75 + 2500 by norm_num,
    show (775 : ℚ) = 31 * 25 + 0 by norm_num]
  rfl

/-- C1, counterexample: the spec's end-to-end figure is arithmetically wrong.
On tiers `[{1,2,75},{3,5,50},{6,10,35}]`, base rate `25`, bonuses
`[{1,1,2500},{2,2,2000}]`, the scenario `(rank=1, points=73)` yields
`73 × 75 + 2500 = 7975`, not the claimed `8175`. -/
theorem C1_counterexample :
    compute_scenarios END_TO_END_SCEN DEFAULT_TIERS 25 DEFAULT_PROMOS "first" "first" =
      .ok [⟨1, 73, 75, 2500, 7975⟩, ⟨11, 31, 25, 0, 775⟩] ∧ (7975 : ℚ) ≠ 8175 :=
  ⟨end_to_end_eval, by norm_num⟩

/-- C1 (amended): for every cleaned scenario row the evaluator computes
`total = points × rate + bonus`, with the rate from the tier resolver and the
bonus from the bonus resolver at the row's rank; concretely, with the spec's
tiers/bonuses and base rate 25, the scenario `(rank=1, points=73)` yields
rate 75, bonus 2500, total `73 × 75 + 2500 = 7975`, and `(rank=11,
points=31)` yields rate 25 (fallback), bonus 0, total 775. -/
theorem C1_scenario_totals :
    (∀ (scen : RawTable) (tiers : List Rule) (base_rate : ℚ) (promos : List Rule)
        (pm tm : String) (out : List ResultRow),
        compute_scenarios scen tiers base_rate promos pm tm = .ok out →
        ∀ r ∈ out, r.rate = find_rate_for_place r.platz tiers base_rate tm ∧
          r.bonus = find_bonus_for_place r.platz promos pm ∧
          r.total = r.punkte * r.rate + r.bonus) ∧
    compute_scenarios END_TO_END_SCEN DEFAULT_TIERS 25 DEFAULT_PROMOS "first" "first" =
      .ok [⟨1, 73, 75, 2500, 7975⟩, ⟨11, 31, 25, 0, 775⟩] := by
  constructor
  · intro scen tiers base_rate promos pm tm out h r hr
    rw [compute_scenarios_ok_eq h] at hr
    obtain ⟨s, -, rfl⟩ := List.mem_map.1 hr
    exact ⟨rfl, rfl, rfl⟩
  · exact end_to_end_eval

/-- Witness for C1: the first output row of the end-to-end example satisfies
the resolver and total equations. -/
theorem C1_scenario_totals_witness :
    (⟨1, 73, 75, 2500, 7975⟩ : ResultRow).rate =
      find_rate_for_place (⟨1, 73, 75, 2500, 7975⟩ : ResultRow).platz DEFAULT_TIERS 25
        "first" ∧
    (⟨1, 73, 75, 2500, 7975⟩ : ResultRow).bonus =
      find_bonus_for_place (⟨1, 73, 75, 2500, 7975⟩ : ResultRow).platz DEFAULT_PROMOS
        "first" ∧
    (⟨1, 73, 75, 2500, 7975⟩ : ResultRow).total =
      (⟨1, 73, 75, 2500, 7975⟩ : ResultRow).punkte * (⟨1, 73, 75, 2500, 7975⟩ : ResultRow).rate +
        (⟨1, 73, 75, 2500, 7975⟩ : ResultRow).bonus :=
  C1_scenario_totals.1 END_TO_END_SCEN DEFAULT_TIERS 25 DEFAULT_PROMOS "first" "first"
    [⟨1, 73, 75, 2500, 7975⟩, ⟨11, 31, 25, 0, 775⟩] C1_scenario_totals.2
    ⟨1, 73, 75, 2500, 7975⟩ (List.mem_cons_self _ _)

/-- C2, counterexample: normalization is not total.  A tiers table whose
columns (after aliasing) lack `von_platz` raises a `KeyError` in
`df[col]` (`src/app.py:26`), instead of returning a table. -/
theorem C2_counterexample :
    normalize_tiers ⟨["bis", "eur_pro_punkt"], [[Cell.num 5, Cell.num 50]]⟩ =
      .error "KeyError" := by decide

/-- C2 (amended): normalization never raises provided the aliased column
labels contain both `von_platz` and `bis_platz` and every numeric value in
those two columns is integral; under these conditions it returns a (possibly
empty or partial) table for every input, however malformed the rows
(non-numeric cells, missing cells, missing value column, inverted ranges). -/
theorem C2_no_raise :
    ∀ t : RawTable,
      ((colIdx (t.cols.map canonTierCol) "von_platz").isSome = true →
        (colIdx (t.cols.map canonTierCol) "bis_platz").isSome = true →
        intColOk (t.rows.map fun row =>
          (cellAt (t.cols.map canonTierCol) "von_platz" row).toNumeric) = true →
        intColOk (t.rows.map fun row =>
          (cellAt (t.cols.map canonTierCol) "bis_platz" row).toNumeric) = true →
        ∃ out, normalize_tiers t = .ok out) ∧
      ((colIdx (t.cols.map canonPromoCol) "von_platz").isSome = true →
        (colIdx (t.cols.map canonPromoCol) "bis_platz").isSome = true →
        intColOk (t.rows.map fun row =>
          (cellAt (t.cols.map canonPromoCol) "von_platz" row).toNumeric) = true →
        intColOk (t.rows.map fun row =>
          (cellAt (t.cols.map canonPromoCol) "bis_platz" row).toNumeric) = true →
        ∃ out, normalize_promos t = .ok out) :=
  fun t =>
    ⟨fun h1 h2 h3 h4 => ⟨_, normalize_ranges_eq_ok h1 h2 h3 h4⟩,
     fun h1 h2 h3 h4 => ⟨_, normalize_ranges_eq_ok h1 h2 h3 h4⟩⟩

/-- Witness for C2 (amended): a table with aliased rank columns, a missing
value column, a malformed cell and an inverted range still normalizes
without an error. -/
theorem C2_no_raise_witness :
    ∃ out, normalize_tiers ⟨["Von", "bis "],
      [[Cell.num 1, Cell.na], [Cell.num 9, Cell.num 4], [Cell.num 1, Cell.num 2]]⟩ =
      .ok out :=
  (C2_no_raise ⟨["Von", "bis "],
      [[Cell.num 1, Cell.na], [Cell.num 9, Cell.num 4], [Cell.num 1, Cell.num 2]]⟩).1
    (by decide) (by decide) (by decide) (by decide)

theorem ruleMatches_iff {place : ℤ} {r : Rule} :
    ruleMatches place r = true ↔ r.von_platz ≤ place ∧ place ≤ r.bis_platz := by
  simp [ruleMatches]

/-- C3: under tier policy `max_range`, whenever at least one rule matches the
rank, the resolver returns the value of a matching rule of minimum width
`to_rank − from_rank`, with width ties broken by smallest `from_rank`;
concretely, with tiers `[{1,5,10},{1,3,100}]`, rank 2 resolves to `100`. -/
theorem C3_max_range :
    (∀ (place : ℤ) (tiers : List Rule) (base_rate : ℚ),
        tiers.filter (ruleMatches place) ≠ [] →
        ∃ r ∈ tiers.filter (ruleMatches place),
          find_rate_for_place place tiers base_rate "max_range" = r.value ∧
          (∀ s ∈ tiers.filter (ruleMatches place),
            r.bis_platz - r.von_platz ≤ s.bis_platz - s.von_platz) ∧
          (∀ s ∈ tiers.filter (ruleMatches place),
            s.bis_platz - s.von_platz = r.bis_platz - r.von_platz →
            r.von_platz ≤ s.von_platz)) ∧
    find_rate_for_place 2 [⟨1, 5, 10⟩, ⟨1, 3, 100⟩] 25 "max_range" = 100 := by
  constructor
  · intro place tiers base_rate hne
    rcases hm : tiers.filter (ruleMatches place) with - | ⟨m, ms⟩
    · exact absurd hm hne
    have hval : find_rate_for_place place tiers base_rate "max_range" =
        (((m :: ms).insertionSort widthLe).headD m).value := by
      unfold find_rate_for_place
      rw [hm]
      rfl
    rcases hs : (m :: ms).insertionSort widthLe with - | ⟨r, rest⟩
    · have hlen := List.length_insertionSort widthLe (m :: ms)
      rw [hs] at hlen
      exact absurd hlen (by simp)
    have hsorted : List.Sorted widthLe (r :: rest) := by
      rw [← hs]; exact List.sorted_insertionSort widthLe (m :: ms)
    have hrmem : r ∈ m :: ms := by
      rw [← List.mem_insertionSort widthLe, hs]
      exact List.mem_cons_self r rest
    have hbig : ∀ s ∈ m :: ms, s = r ∨ widthLe r s := by
      intro s hsm
      have h2 : s ∈ r :: rest := by
        rw [← hs, List.mem_insertionSort widthLe]
        exact hsm
      rcases List.mem_cons.1 h2 with h3 | h3
      · exact Or.inl h3
      · exact Or.inr (List.rel_of_sorted_cons hsorted s h3)
    refine ⟨r, hrmem, ?_, ?_, ?_⟩
    · rw [hval, hs]
      rfl
    · intro s hsm
      rcases hbig s hsm with rfl | hw
      · exact le_refl _
      · rcases hw with h | ⟨h, -⟩
        · exact le_of_lt h
        · exact le_of_eq h
    · intro s hsm heq
      rcases hbig s hsm with rfl | hw
      · exact le_refl _
      · rcases hw with h | ⟨-, h⟩
        · omega
        · exact h
  · decide

/-- Witness for C3: with the overlapping tiers `[{1,5,10},{1,3,100}]` and
rank 2, the returned value `100` comes from the narrower rule `{1,3,100}`. -/
theorem C3_max_range_witness :
    ∃ r ∈ ([⟨1, 5, 10⟩, ⟨1, 3, 100⟩] : List Rule).filter (ruleMatches 2),
      find_rate_for_place 2 [⟨1, 5, 10⟩, ⟨1, 3, 100⟩] 25 "max_range" = r.value ∧
      (∀ s ∈ ([⟨1, 5, 10⟩, ⟨1, 3, 100⟩] : List Rule).filter (ruleMatches 2),
        r.bis_platz - r.von_platz ≤ s.bis_platz - s.von_platz) ∧
      (∀ s ∈ ([⟨1, 5, 10⟩, ⟨1, 3, 100⟩] : List Rule).filter (ruleMatches 2),
        s.bis_platz - s.von_platz = r.bis_platz - r.von_platz →
        r.von_platz ≤ s.von_platz) :=
  C3_max_range.1 2 [⟨1, 5, 10⟩, ⟨1, 3, 100⟩] 25 (by decide)

/-- C4: resolution is total — in this embedding both resolvers are total
functions into `ℚ` for every integer rank, table and mode string — and when
no rule's inclusive interval contains the rank, the tier resolver returns
exactly the fallback `base_rate` and the bonus resolver returns exactly `0`,
under every policy. -/
theorem C4_fallback (place : ℤ) (tiers promos : List Rule) (base_rate : ℚ)
    (tmode bmode : String)
    (ht : ∀ r ∈ tiers, ¬(r.von_platz ≤ place ∧ place ≤ r.bis_platz))
    (hp : ∀ r ∈ promos, ¬(r.von_platz ≤ place ∧ place ≤ r.bis_platz)) :
    find_rate_for_place place tiers base_rate tmode = base_rate ∧
    find_bonus_for_place place promos bmode = 0 := by
  have h1 : tiers.filter (ruleMatches place) = [] :=
    List.filter_eq_nil_iff.2 fun r hr hm => ht r hr (ruleMatches_iff.1 hm)
  have h2 : promos.filter (ruleMatches place) = [] :=
    List.filter_eq_nil_iff.2 fun r hr hm => hp r hr (ruleMatches_iff.1 hm)
  constructor
  · unfold find_rate_for_place
    rw [h1]
  · unfold find_bonus_for_place
    rw [h2]

/-- Witness for C4: rank 11 is outside every default tier and bonus range
(and the resolvers are also defined on empty tables). -/
theorem C4_fallback_witness :
    find_rate_for_place 11 DEFAULT_TIERS 25 "max_range" = 25 ∧
    find_bonus_for_place 11 DEFAULT_PROMOS "sum" = 0 :=
  C4_fallback 11 DEFAULT_TIERS DEFAULT_PROMOS 25 "max_range" "sum"
    (by decide) (by decide)

/-- C5: the bonus resolver under `sum` returns the sum of all matching
values and under `max` the maximum matching value; concretely, with bonuses
`[{1,1,2500},{2,2,2000}]`, `resolve(1,sum) = 2500` and `resolve(3,sum) = 0`,
and with the added overlapping rule `{1,2,500}`, `resolve(1,max) = 2500` and
`resolve(1,sum) = 3000`. -/
theorem C5_bonus_aggregation :
    (∀ (place : ℤ) (promos : List Rule),
        find_bonus_for_place place promos "sum" =
          ((promos.filter (ruleMatches place)).map Rule.value).sum) ∧
    (∀ (place : ℤ) (promos : List Rule),
        promos.filter (ruleMatches place) ≠ [] →
        ∃ r ∈ promos.filter (ruleMatches place),
          find_bonus_for_place place promos "max" = r.value ∧
          ∀ s ∈ promos.filter (ruleMatches place), s.value ≤ r.value) ∧
    find_bonus_for_place 1 DEFAULT_PROMOS "sum" = 2500 ∧
    find_bonus_for_place 3 DEFAULT_PROMOS "sum" = 0 ∧
    find_bonus_for_place 1 (DEFAULT_PROMOS ++ [({ von_platz := 1, bis_platz := 2, value := 500 } : Rule)]) "max" = 2500 ∧
    find_bonus_for_place 1 (DEFAULT_PROMOS ++ [({ von_platz := 1, bis_platz := 2, value := 500 } : Rule)]) "sum" = 3000 := by
  refine ⟨?_, ?_, ?_, ?_, ?_, ?_⟩
  · intro place promos
    rcases hm : promos.filter (ruleMatches place) with - | ⟨m, ms⟩
    · unfold find_bonus_for_place
      rw [hm]
      rfl
    · unfold find_bonus_for_place
      rw [hm]
      rfl
  · intro place promos hne
    rcases hm : promos.filter (ruleMatches place) with - | ⟨m, ms⟩
    · exact absurd hm hne
    have hval : find_bonus_for_place place promos "max" =
        ms.foldl (fun acc r => max acc r.value) m.value := by
      unfold find_bonus_for_place
      rw [hm]
      rfl
    have hfold : ms.foldl (fun acc r => max acc r.value) m.value =
        (ms.map Rule.value).foldl max m.value := (List.foldl_map Rule.value max ms m.value).symm
    obtain ⟨hmem, hstart, hall⟩ := foldl_max_spec (ms.map Rule.value) m.value
    rw [hfold] at hval
    rcases hmem with he | he
    · refine ⟨m, List.mem_cons_self m ms, by rw [hval, he], ?_⟩
      intro s hsm
      rcases List.mem_cons.1 hsm with rfl | hsm
      · exact le_of_eq he.symm |>.trans (le_of_eq he)
      · exact le_of_le_of_eq (hall s.value (List.mem_map_of_mem Rule.value hsm)) he
    · obtain ⟨w, hw, hwv⟩ := List.mem_map.1 he
      refine ⟨w, List.mem_cons_of_mem m hw, by rw [hval, ← hwv], ?_⟩
      intro s hsm
      rcases List.mem_cons.1 hsm with rfl | hsm
      · exact le_of_le_of_eq hstart hwv.symm
      · exact le_of_le_of_eq (hall s.value (List.mem_map_of_mem Rule.value hsm)) hwv.symm
  · conv_rhs => rw [show (2500 : ℚ) = 2500 + 0 by norm_num]
    rfl
  · decide
  · decide
  · conv_rhs => rw [show (3000 : ℚ) = 2500 + (500 + 0) by norm_num]
    rfl

/-- Witness for C5: with the overlapping bonus table
`[{1,1,2500},{2,2,2000},{1,2,500}]` and rank 1, the `max` mode returns the
value of a matching rule that dominates every other match. -/
theorem C5_bonus_aggregation_witness :
    ∃ r ∈ (DEFAULT_PROMOS ++ [({ von_platz := 1, bis_platz := 2, value := 500 } : Rule)]).filter (ruleMatches 1),
      find_bonus_for_place 1 (DEFAULT_PROMOS ++ [({ von_platz := 1, bis_platz := 2, value := 500 } : Rule)]) "max" = r.value ∧
      ∀ s ∈ (DEFAULT_PROMOS ++ [({ von_platz := 1, bis_platz := 2, value := 500 } : Rule)]).filter (ruleMatches 1),
        s.value ≤ r.value :=
  C5_bonus_aggregation.2.1 1 (DEFAULT_PROMOS ++ [({ von_platz := 1, bis_platz := 2, value := 500 } : Rule)]) (by decide)

/-- C6: the output of normalization (tiers and promos alike) is sorted
ascending by `(from_rank, to_rank)`: pairwise in output order,
`from_rank[i] ≤ from_rank[j]`, and when the `from_rank`s are equal,
`to_rank[i] ≤ to_rank[j]`. -/
theorem C6_sort_invariant :
    (∀ (t : RawTable) (out : List Rule), normalize_tiers t = .ok out →
        out.Pairwise fun a b => a.von_platz ≤ b.von_platz ∧
          (a.von_platz = b.von_platz → a.bis_platz ≤ b.bis_platz)) ∧
    (∀ (t : RawTable) (out : List Rule), normalize_promos t = .ok out →
        out.Pairwise fun a b => a.von_platz ≤ b.von_platz ∧
          (a.von_platz = b.von_platz → a.bis_platz ≤ b.bis_platz)) := by
  constructor <;>
  · intro t out h
    refine (sorted_normalize_ranges h).imp ?_
    rintro a b (hlt | ⟨heq, hle⟩)
    · exact ⟨le_of_lt hlt, fun he => absurd (he ▸ hlt) (lt_irrefl _)⟩
    · exact ⟨le_of_eq heq, fun _ => hle⟩

/-- Witness for C6: a concrete unsorted tiers table normalizes to a list
that is pairwise sorted by `(from_rank, to_rank)`. -/
theorem C6_sort_invariant_witness :
    ([⟨1, 2, 75⟩, ⟨1, 4, 9⟩, ⟨3, 5, 50⟩] : List Rule).Pairwise fun a b =>
      a.von_platz ≤ b.von_platz ∧
        (a.von_platz = b.von_platz → a.bis_platz ≤ b.bis_platz) :=
  C6_sort_invariant.1
    ⟨["Von", "Bis", "€/Punkt"],
      [[Cell.num 3, Cell.num 5, Cell.num 50],
       [Cell.num 1, Cell.num 4, Cell.num 9],
       [Cell.num 1, Cell.num 2, Cell.num 75]]⟩
    [⟨1, 2, 75⟩, ⟨1, 4, 9⟩, ⟨3, 5, 50⟩] (by decide)

/-- C7: every row of a normalized output corresponds to an input row whose
`from_rank`, `to_rank` and value cells all coerce successfully and whose
coerced range is not inverted — so an input row with a failed coercion
(non-numeric or missing field) or with `from_rank > to_rank` has no
corresponding row in the output. -/
theorem C7_drop_invariant :
    (∀ (t : RawTable) (out : List Rule), normalize_tiers t = .ok out →
        ∀ r ∈ out, ∃ row ∈ t.rows, ∃ v b x : ℚ,
          (cellAt (t.cols.map canonTierCol) "von_platz" row).toNumeric = some v ∧
          (cellAt (t.cols.map canonTierCol) "bis_platz" row).toNumeric = some b ∧
          (cellAt (t.cols.map canonTierCol) "eur_pro_punkt" row).toNumeric = some x ∧
          v.num ≤ b.num ∧ r = ⟨v.num, b.num, x⟩) ∧
    (∀ (t : RawTable) (out : List Rule), normalize_promos t = .ok out →
        ∀ r ∈ out, ∃ row ∈ t.rows, ∃ v b x : ℚ,
          (cellAt (t.cols.map canonPromoCol) "von_platz" row).toNumeric = some v ∧
          (cellAt (t.cols.map canonPromoCol) "bis_platz" row).toNumeric = some b ∧
          (cellAt (t.cols.map canonPromoCol) "bonus_eur" row).toNumeric = some x ∧
          v.num ≤ b.num ∧ r = ⟨v.num, b.num, x⟩) := by
  constructor <;>
  · intro t out h r hr
    obtain ⟨row, hrow, hc⟩ := (mem_normalize_ranges h).1 hr
    obtain ⟨v, b, x, h1, h2, h3, h4, h5⟩ := cleanRow_eq_some hc
    exact ⟨row, hrow, v, b, x, h1, h2, h3, h4, h5⟩

/-- Witness for C7: in a table with one `NaN` row and one inverted row, the
surviving output row `{1,2,75}` stems from a fully coercible input row. -/
theorem C7_drop_invariant_witness :
    ∃ row ∈ (⟨["Von", "bis", "€/Punkt"],
        [[Cell.num 3, Cell.num 5, Cell.num 50],
         [Cell.num 1, Cell.num 2, Cell.num 75],
         [Cell.num 9, Cell.num 4, Cell.num 10],
         [Cell.na, Cell.num 7, Cell.num 1]]⟩ : RawTable).rows, ∃ v b x : ℚ,
      (cellAt ((⟨["Von", "bis", "€/Punkt"],
        [[Cell.num 3, Cell.num 5, Cell.num 50],
         [Cell.num 1, Cell.num 2, Cell.num 75],
         [Cell.num 9, Cell.num 4, Cell.num 10],
         [Cell.na, Cell.num 7, Cell.num 1]]⟩ : RawTable).cols.map canonTierCol)
          "von_platz" row).toNumeric = some v ∧
      (cellAt ((⟨["Von", "bis", "€/Punkt"],
        [[Cell.num 3, Cell.num 5, Cell.num 50],
         [Cell.num 1, Cell.num 2, Cell.num 75],
         [Cell.num 9, Cell.num 4, Cell.num 10],
         [Cell.na, Cell.num 7, Cell.num 1]]⟩ : RawTable).cols.map canonTierCol)
          "bis_platz" row).toNumeric = some b ∧
      (cellAt ((⟨["Von", "bis", "€/Punkt"],
        [[Cell.num 3, Cell.num 5, Cell.num 50],
         [Cell.num 1, Cell.num 2, Cell.num 75],
         [Cell.num 9, Cell.num 4, Cell.num 10],
         [Cell.na, Cell.num 7, Cell.num 1]]⟩ : RawTable).cols.map canonTierCol)
          "eur_pro_punkt" row).toNumeric = some x ∧
      v.num ≤ b.num ∧ (⟨1, 2, 75⟩ : Rule) = ⟨v.num, b.num, x⟩ :=
  C7_drop_invariant.1
    ⟨["Von", "bis", "€/Punkt"],
      [[Cell.num 3, Cell.num 5, Cell.num 50],
       [Cell.num 1, Cell.num 2, Cell.num 75],
       [Cell.num 9, Cell.num 4, Cell.num 10],
       [Cell.na, Cell.num 7, Cell.num 1]]⟩
    [⟨1, 2, 75⟩, ⟨3, 5, 50⟩] (by decide) ⟨1, 2, 75⟩ (by decide)

theorem intColOk_map_intCast {α : Type} (l : List α) (f : α → ℤ) :
    intColOk (l.map fun a => some ((f a : ℤ) : ℚ)) = true := by
  rw [intColOk, List.all_eq_true]
  intro c hc
  obtain ⟨r, -, rfl⟩ := List.mem_map.1 hc
  rfl

theorem cleanRow_rulesToTable {vname : String}
    (hv1 : vname ≠ "von_platz") (hv2 : vname ≠ "bis_platz") {r : Rule}
    (hr : r.von_platz ≤ r.bis_platz) :
    cleanRow ["von_platz", "bis_platz", vname] vname
      [Cell.num r.von_platz, Cell.num r.bis_platz, Cell.num r.value] = some r := by
  have e1 : ("von_platz" == vname) = false := by
    rw [beq_eq_false_iff_ne]
    exact fun hh => hv1 hh.symm
  have e2 : ("bis_platz" == vname) = false := by
    rw [beq_eq_false_iff_ne]
    exact fun hh => hv2 hh.symm
  have hidx : colIdx ["von_platz", "bis_platz", vname] vname = some 2 := by
    simp [colIdx, e1, e2]
  have c3 : cellAt ["von_platz", "bis_platz", vname] vname
      [Cell.num r.von_platz, Cell.num r.bis_platz, Cell.num r.value] =
      Cell.num r.value := by
    unfold cellAt
    rw [hidx]
    rfl
  unfold cleanRow
  rw [c3]
  show coerceTriple (some (r.von_platz : ℚ), some (r.bis_platz : ℚ), some r.value) = some r
  unfold coerceTriple
  simp only [Rat.num_intCast]
  rw [if_pos hr]

theorem normalize_ranges_rulesToTable {canon : String → String} {vname : String}
    (h1 : canon "von_platz" = "von_platz") (h2 : canon "bis_platz" = "bis_platz")
    (h3 : canon vname = vname) (hv1 : vname ≠ "von_platz") (hv2 : vname ≠ "bis_platz")
    {rs : List Rule} (hs : rs.Sorted ruleLe)
    (hvb : ∀ r ∈ rs, r.von_platz ≤ r.bis_platz) :
    normalize_ranges canon vname (rulesToTable vname rs) = .ok rs := by
  have hcols : (rulesToTable vname rs).cols.map canon =
      ["von_platz", "bis_platz", vname] := by
    simp [rulesToTable, h1, h2, h3]
  have hrows : (rulesToTable vname rs).rows = rs.map fun r =>
      [Cell.num r.von_platz, Cell.num r.bis_platz, Cell.num r.value] := rfl
  have c1 : (colIdx ((rulesToTable vname rs).cols.map canon) "von_platz").isSome = true := by
    rw [hcols]; rfl
  have c2 : (colIdx ((rulesToTable vname rs).cols.map canon) "bis_platz").isSome = true := by
    rw [hcols]; rfl
  have c3 : intColOk ((rulesToTable vname rs).rows.map fun row =>
      (cellAt ((rulesToTable vname rs).cols.map canon) "von_platz" row).toNumeric) = true := by
    rw [hcols, hrows, List.map_map]
    exact intColOk_map_intCast rs Rule.von_platz
  have c4 : intColOk ((rulesToTable vname rs).rows.map fun row =>
      (cellAt ((rulesToTable vname rs).cols.map canon) "bis_platz" row).toNumeric) = true := by
    rw [hcols, hrows, List.map_map]
    exact intColOk_map_intCast rs Rule.bis_platz
  rw [normalize_ranges_eq_ok c1 c2 c3 c4, hcols, hrows, List.filterMap_map]
  have hfm : rs.filterMap (cleanRow ["von_platz", "bis_platz", vname] vname ∘ fun r =>
      [Cell.num r.von_platz, Cell.num r.bis_platz, Cell.num r.value]) = rs.map id :=
    filterMap_eq_map_of fun r hr => cleanRow_rulesToTable hv1 hv2 (hvb r hr)
  rw [hfm, List.map_id, hs.insertionSort_eq]

/-- C8: normalization is idempotent — re-normalizing the raw re-encoding of
an already-normalized table (for tiers and promos alike) returns exactly the
same list of rules, in the same order. -/
theorem C8_idempotent :
    (∀ (t : RawTable) (out : List Rule), normalize_tiers t = .ok out →
        normalize_tiers (rulesToTable "eur_pro_punkt" out) = .ok out) ∧
    (∀ (t : RawTable) (out : List Rule), normalize_promos t = .ok out →
        normalize_promos (rulesToTable "bonus_eur" out) = .ok out) := by
  constructor
  · intro t out h
    exact normalize_ranges_rulesToTable rfl rfl rfl (by decide) (by decide)
      (sorted_normalize_ranges h) (fun r hr => normalize_mem_range_le h hr)
  · intro t out h
    exact normalize_ranges_rulesToTable rfl rfl rfl (by decide) (by decide)
      (sorted_normalize_ranges h) (fun r hr => normalize_mem_range_le h hr)

/-- Witness for C8: re-normalizing the normalized form of a concrete
unsorted tiers table reproduces it unchanged. -/
theorem C8_idempotent_witness :
    normalize_tiers (rulesToTable "eur_pro_punkt" [⟨1, 2, 75⟩, ⟨3, 5, 50⟩]) =
      .ok [⟨1, 2, 75⟩, ⟨3, 5, 50⟩] :=
  C8_idempotent.1
    ⟨["Von", "bis", "€/Punkt"],
      [[Cell.num 3, Cell.num 5, Cell.num 50], [Cell.num 1, Cell.num 2, Cell.num 75]]⟩
    [⟨1, 2, 75⟩, ⟨3, 5, 50⟩] (by decide)

/-- C9, counterexample: the evaluator is not total even on batches whose
rows are all (vacuously) well-formed.  On an empty scenario batch without a
`platz` column, `df.get("platz", np.nan)` yields the scalar `np.nan` and
`.astype("Int64")` raises (`src/app.py:70`), so there is no output at all —
the claimed row-count equality fails. -/
theorem C9_counterexample :
    (⟨["Punkte"], []⟩ : RawTable).rows = [] ∧
    compute_scenarios ⟨["Punkte"], []⟩ DEFAULT_TIERS 25 DEFAULT_PROMOS "first" "first" =
      .error "AttributeError: float object has no attribute astype" :=
  ⟨rfl, by decide⟩

/-- C9 (amended): when every scenario row is well-formed (the rank cell
coerces to an integer, the points cell to a number) and the canonicalized
columns contain `platz` in case the batch is empty — for a nonempty batch
the presence of the column already follows from the well-formedness of any
row — the evaluator returns one output row per input row, in input order:
output row `i` carries exactly the coerced rank and points of input
row `i`. -/
theorem C9_row_preservation (t : RawTable) (tiers : List Rule) (base_rate : ℚ)
    (promos : List Rule) (pm tm : String)
    (hwf : ∀ row ∈ t.rows, ∃ pl pts : ℚ,
      (cellAt (scenCols t) "platz" row).toNumeric = some pl ∧ pl.den = 1 ∧
      (cellAt (scenCols t) "punkte" row).toNumeric = some pts)
    (hcol : t.rows = [] → (colIdx (scenCols t) "platz").isSome = true) :
    ∃ out, compute_scenarios t tiers base_rate promos pm tm = .ok out ∧
      out.length = t.rows.length ∧
      ∀ (i : ℕ) (hi : i < t.rows.length) (ho : i < out.length),
        ∃ pl pts : ℚ,
          (cellAt (scenCols t) "platz" (t.rows.get ⟨i, hi⟩)).toNumeric = some pl ∧
          (cellAt (scenCols t) "punkte" (t.rows.get ⟨i, hi⟩)).toNumeric = some pts ∧
          (out.get ⟨i, ho⟩).platz = pl.num ∧ (out.get ⟨i, ho⟩).punkte = pts := by
  have hclean : ∀ row ∈ t.rows, cleanScenRow (scenCols t) row =
      some ((((cellAt (scenCols t) "platz" row).toNumeric.getD 0).num,
        (cellAt (scenCols t) "punkte" row).toNumeric.getD 0)) := by
    intro row hrow
    obtain ⟨pl, pts, h1, -, h3⟩ := hwf row hrow
    unfold cleanScenRow
    rw [h1, h3]
    rfl
  have hok : intColOk (t.rows.map fun row =>
      (cellAt (scenCols t) "platz" row).toNumeric) = true := by
    rw [intColOk, List.all_eq_true]
    intro c hc
    obtain ⟨row, hrow, rfl⟩ := List.mem_map.1 hc
    obtain ⟨pl, pts, h1, h2, -⟩ := hwf row hrow
    rw [h1]
    show (pl.den == 1) = true
    exact beq_iff_eq.2 h2
  have hcol2 : (colIdx (scenCols t) "platz").isSome = true := by
    rcases ht : t.rows with - | ⟨row, rest⟩
    · exact hcol ht
    · obtain ⟨pl, pts, h1, -, -⟩ := hwf row (by rw [ht]; exact List.mem_cons_self row rest)
      exact colIdx_isSome_of_cell h1
  have hcomp := compute_scenarios_eq_ok tiers base_rate promos pm tm hcol2 hok
  have hfm : t.rows.filterMap (cleanScenRow (scenCols t)) =
      t.rows.map fun row => ((((cellAt (scenCols t) "platz" row).toNumeric.getD 0).num : ℤ),
        (cellAt (scenCols t) "punkte" row).toNumeric.getD 0) :=
    filterMap_eq_map_of hclean
  rw [hfm] at hcomp
  refine ⟨_, hcomp, by simp, ?_⟩
  intro i hi ho
  obtain ⟨pl, pts, h1, -, h3⟩ := hwf (t.rows.get ⟨i, hi⟩) (t.rows.get_mem i hi)
  rw [List.get_eq_getElem] at h1 h3
  refine ⟨pl, pts, ?_, ?_, ?_, ?_⟩
  · rw [List.get_eq_getElem]
    exact h1
  · rw [List.get_eq_getElem]
    exact h3
  · simp only [List.get_eq_getElem, List.getElem_map]
    show ((cellAt (scenCols t) "platz" t.rows[i]).toNumeric.getD 0).num = pl.num
    have h1b : (cellAt (scenCols t) "platz" t.rows[i]).toNumeric = some pl := h1
    rw [h1b]
    rfl
  · simp only [List.get_eq_getElem, List.getElem_map]
    show (cellAt (scenCols t) "punkte" t.rows[i]).toNumeric.getD 0 = pts
    have h3b : (cellAt (scenCols t) "punkte" t.rows[i]).toNumeric = some pts := h3
    rw [h3b]
    rfl

/-- Witness for C9: the two-row end-to-end scenario batch is well-formed and
its evaluation preserves row count, order, ranks and points. -/
theorem C9_row_preservation_witness :
    ∃ out, compute_scenarios END_TO_END_SCEN DEFAULT_TIERS 25 DEFAULT_PROMOS
        "first" "first" = .ok out ∧
      out.length = END_TO_END_SCEN.rows.length ∧
      ∀ (i : ℕ) (hi : i < END_TO_END_SCEN.rows.length) (ho : i < out.length),
        ∃ pl pts : ℚ,
          (cellAt (scenCols END_TO_END_SCEN) "platz"
            (END_TO_END_SCEN.rows.get ⟨i, hi⟩)).toNumeric = some pl ∧
          (cellAt (scenCols END_TO_END_SCEN) "punkte"
            (END_TO_END_SCEN.rows.get ⟨i, hi⟩)).toNumeric = some pts ∧
          (out.get ⟨i, ho⟩).platz = pl.num ∧ (out.get ⟨i, ho⟩).punkte = pts :=
  C9_row_preservation END_TO_END_SCEN DEFAULT_TIERS 25 DEFAULT_PROMOS "first" "first"
    (by
      intro row hrow
      rcases List.mem_cons.1 hrow with rfl | hrow2
      · exact ⟨1, 73, by decide, by decide, by decide⟩
      rcases List.mem_cons.1 hrow2 with rfl | hrow3
      · exact ⟨11, 31, by decide, by decide, by decide⟩
      · exact absurd hrow3 (List.not_mem_nil row))
    (fun _ => by decide)

/-- C10: policy strings are not validated — for any mode string other than
`first` and `max` (not only `sum`) the bonus resolver returns the sum of all
matching values, and for any mode string other than `max_range` (not only
`first`) the tier resolver returns the first matching rule's value. -/
theorem C10_mode_fallthrough :
    (∀ (place : ℤ) (promos : List Rule) (mode : String),
        mode ≠ "first" → mode ≠ "max" →
        find_bonus_for_place place promos mode =
          ((promos.filter (ruleMatches place)).map Rule.value).sum) ∧
    (∀ (place : ℤ) (tiers : List Rule) (base_rate : ℚ) (mode : String)
        (m : Rule) (ms : List Rule), mode ≠ "max_range" →
        tiers.filter (ruleMatches place) = m :: ms →
        find_rate_for_place place tiers base_rate mode = m.value) := by
  constructor
  · intro place promos mode hm1 hm2
    rcases hm : promos.filter (ruleMatches place) with - | ⟨m, ms⟩
    · unfold find_bonus_for_place
      rw [hm]
      rfl
    · unfold find_bonus_for_place
      rw [hm]
      show (if mode = "first" then m.value
        else if mode = "max" then ms.foldl (fun acc r => max acc r.value) m.value
        else (m.value :: ms.map Rule.value).sum) =
        ((m :: ms).map Rule.value).sum
      rw [if_neg hm1, if_neg hm2]
      rfl
  · intro place tiers base_rate mode m ms hm1 hfil
    unfold find_rate_for_place
    rw [hfil]
    show (if mode = "max_range" then
        (((m :: ms).insertionSort widthLe).headD m).value else m.value) = m.value
    rw [if_neg hm1]

/-- Witness for C10: with the unknown mode string `banana`, the bonus
resolver sums the matching values and the tier resolver returns the first
match. -/
theorem C10_mode_fallthrough_witness :
    find_bonus_for_place 1 DEFAULT_PROMOS "banana" =
      ((DEFAULT_PROMOS.filter (ruleMatches 1)).map Rule.value).sum ∧
    find_rate_for_place 1 DEFAULT_TIERS 25 "banana" = (⟨1, 2, 75⟩ : Rule).value :=
  ⟨C10_mode_fallthrough.1 1 DEFAULT_PROMOS "banana" (by decide) (by decide),
   C10_mode_fallthrough.2 1 DEFAULT_TIERS 25 "banana" ⟨1, 2, 75⟩ [] (by decide) (by decide)⟩
